import Mathlib

set_option maxRecDepth 8000

/-!
Shallow embedding of the proxylab capture-and-replay server.

Sources embedded here:
- the capture store (`InMemoryCaptureStore` / `FileCaptureStore`): bounded
  newest-first list of record/replay pairs with an id index, tail pruning,
  file hydration;
- the redaction engine (`redactHeaders`, `redactJsonObject`, `redactBody`);
- the request pipeline of the Fastify server (`joinPath`, `normalizeHeaders`,
  `buildReplaySourceFromRequest`, `withCapture`, the proxy route and the
  replay route handlers).

Platform primitives that the source delegates to the runtime (JSON.parse,
JSON.stringify, the WHATWG URL parser/serializer, the unchecked cast applied
to persisted snapshot entries, and the regex based text-fallback redaction)
are collected in a `Prims` record and kept abstract; no theorem below depends
on their behaviour beyond what a hypothesis states explicitly.
-/

/-- JSON values as produced by JSON.parse.  Numbers are modeled as integers:
the redaction code never inspects or transforms numeric values, it only
passes them through. -/
inductive Json where
  | null : Json
  | bool (b : Bool) : Json
  | num (n : Int) : Json
  | str (s : String) : Json
  | arr (items : List Json) : Json
  | obj (fields : List (String × Json)) : Json

/-- One side of a recorded exchange (types.ts, `CapturePayload`):
redacted headers, redacted body (`none` is the explicit no-body marker),
byte size of the original body. -/
structure CapturePayload where
  headers : List (String × String)
  body : Option String
  size : Nat
deriving DecidableEq

/-- The persisted, externally visible capture unit (types.ts, `CaptureRecord`). -/
structure CaptureRecord where
  id : String
  createdAt : String
  replayOf : Option String
  method : String
  targetUrl : String
  path : String
  statusCode : Nat
  durationMs : Nat
  request : CapturePayload
  response : CapturePayload
deriving DecidableEq

/-- The unredacted replayable description of one outbound call
(types.ts, `ReplaySource`). -/
structure ReplaySource where
  id : String
  method : String
  targetUrl : String
  path : String
  headers : List (String × String)
  body : Option String
deriving DecidableEq

/-- A stored pair of record and replay source (captureStore.ts, `StoredCapture`). -/
structure StoredCapture where
  record : CaptureRecord
  replay : ReplaySource
deriving DecidableEq

/-- A parsed URL as the code uses it: everything before the path, the
pathname, and the ordered search parameter list. -/
structure UrlModel where
  origin : String
  pathname : String
  search : List (String × String)
deriving DecidableEq

/-- Platform primitives used by the source but supplied by the JS runtime.
They are abstract parameters of the embedding: `jsonParse` is JSON.parse
(returning `none` when it throws), `stringify` is the pretty-printing
JSON.stringify(v, null, 2), `redactTextModel` stands for the regex based
`redactText` fallback of redaction.ts (no claim concerns its output),
`urlParse`/`urlToString` are the WHATWG URL constructor and serializer, and
`decodeEntry` models the unchecked `as StoredCapture` cast applied by
FileCaptureStore.load to each element of a persisted captures array: `some`
is the entry when it conforms to the StoredCapture shape, `none` when the
raw value does not conform, so that hydrate's `entry.record.id` access
throws a TypeError (e.g. the entry is a number or lacks a record object). -/
structure Prims where
  jsonParse : String → Option Json
  stringify : Json → String
  redactTextModel : String → String
  urlParse : String → Option UrlModel
  urlToString : UrlModel → String
  decodeEntry : Json → Option StoredCapture

/-! ### String helpers (substring tests standing for the source's regexes) -/

/-- Whether `needle` occurs as a contiguous substring of `hay` (character lists). -/
def subOccurs (needle : List Char) : List Char → Bool
  | [] => needle.isEmpty
  | c :: rest => needle.isPrefixOf (c :: rest) || subOccurs needle rest

/-- Whether `needle` occurs as a substring of `hay`. -/
def containsSub (hay needle : String) : Bool :=
  subOccurs needle.data hay.data

/-- ASCII lowercasing (JS `toLowerCase` / the `i` regex flag), written over
the character list so that it evaluates by kernel reduction. -/
def lowerString (s : String) : String :=
  String.mk (s.data.map Char.toLower)

/-- ASCII uppercasing (JS `toUpperCase`), written over the character list so
that it evaluates by kernel reduction. -/
def upperString (s : String) : String :=
  String.mk (s.data.map Char.toUpper)

/-- The fixed redaction marker (redaction.ts, `REDACTION_TOKEN`). -/
def REDACTION_TOKEN : String := "[REDACTED]"

/-- The sensitive header name test (redaction.ts, `sensitiveHeaderPatterns`):
case-insensitive substring match of authorization, cookie, token,
api-key / api_key / apikey, secret. -/
def sensitiveHeader (key : String) : Bool :=
  let k := lowerString key
  containsSub k "authorization" || containsSub k "cookie" || containsSub k "token" ||
  containsSub k "api-key" || containsSub k "api_key" || containsSub k "apikey" ||
  containsSub k "secret"

/-- The sensitive body field test (redaction.ts, `sensitiveFieldPattern`):
case-insensitive substring match of token, secret, password, authorization,
api-key / api_key / apikey, session, cookie. -/
def sensitiveField (key : String) : Bool :=
  let k := lowerString key
  containsSub k "token" || containsSub k "secret" || containsSub k "password" ||
  containsSub k "authorization" ||
  containsSub k "api-key" || containsSub k "api_key" || containsSub k "apikey" ||
  containsSub k "session" || containsSub k "cookie"

/-! ### Redaction engine (redaction.ts) -/

/-- Header redaction (redaction.ts, `redactHeaders`): drop absent or empty
values, replace the value of every sensitive-named header by the token,
pass every other value through unchanged. -/
def redactHeaders (headers : List (String × Option String)) : List (String × String) :=
  headers.foldl
    (fun result kv =>
      match kv.2 with
      | none => result
      | some v =>
        if v.length = 0 then result
        else result ++ [(kv.1, if sensitiveHeader kv.1 then REDACTION_TOKEN else v)])
    []

/-- Structural JSON redaction (redaction.ts, `redactJsonObject`): arrays are
mapped element-wise keeping the parent key; in an object every field whose own
key or whose parent key is sensitive becomes the token, the rest are recursed
into with the field key as new parent; a string under a sensitive parent key
becomes the token; everything else passes through. -/
def redactJsonObject (value : Json) (parentKey : String) : Json :=
  match value with
  | .arr items => .arr (items.attach.map (fun it => redactJsonObject it.1 parentKey))
  | .obj fields => .obj (fields.attach.map (fun kv =>
      if sensitiveField kv.1.1 || sensitiveField parentKey then (kv.1.1, .str REDACTION_TOKEN)
      else (kv.1.1, redactJsonObject kv.1.2 kv.1.1)))
  | .str s => if sensitiveField parentKey then .str REDACTION_TOKEN else .str s
  | v => v
termination_by sizeOf value
decreasing_by
  all_goals simp only [Json.arr.sizeOf_spec, Json.obj.sizeOf_spec]
  · have h := List.sizeOf_lt_of_mem it.2
    omega
  · have h := List.sizeOf_lt_of_mem kv.2
    have h2 : sizeOf kv.1.2 < sizeOf kv.1 := by
      obtain ⟨⟨a, b⟩, hm⟩ := kv
      simp
    omega

/-- Body redaction (redaction.ts, `redactBody`): an absent or empty body
redacts to the explicit no-body marker `none`; for a JSON content type with a
parsable body the parsed structure is redacted and re-serialized with the
pretty printer; otherwise the text fallback is applied. -/
def redactBody (P : Prims) (body : Option String) (contentType : Option String) :
    Option String :=
  match body with
  | none => none
  | some b =>
    if b.length = 0 then none
    else
      let isJsonContentType :=
        match contentType with
        | some ct => containsSub ct "application/json"
        | none => false
      if isJsonContentType then
        match P.jsonParse b with
        | some parsed => some (P.stringify (redactJsonObject parsed ""))
        | none => some (P.redactTextModel b)
      else some (P.redactTextModel b)

/-- Modelled from the spec: the redaction rule as §4.3 words it — "a field
is redacted (value replaced by the token) if its own key matches a
sensitive-field pattern OR its parent key matched (so a nested object/string
under a sensitive key is fully masked rather than recursed into) ... arrays
recurse element-wise"; the recursion carries only whether the parent key
matched.  Used to compare the source's `redactJsonObject` against the spec. -/
def specRedact (value : Json) (parentMatched : Bool) : Json :=
  match value with
  | .arr items => .arr (items.attach.map (fun it => specRedact it.1 parentMatched))
  | .obj fields => .obj (fields.attach.map (fun kv =>
      if sensitiveField kv.1.1 || parentMatched then (kv.1.1, .str REDACTION_TOKEN)
      else (kv.1.1, specRedact kv.1.2 (sensitiveField kv.1.1))))
  | .str s => if parentMatched then .str REDACTION_TOKEN else .str s
  | v => v
termination_by sizeOf value
decreasing_by
  all_goals simp only [Json.arr.sizeOf_spec, Json.obj.sizeOf_spec]
  · have h := List.sizeOf_lt_of_mem it.2
    omega
  · have h := List.sizeOf_lt_of_mem kv.2
    have h2 : sizeOf kv.1.2 < sizeOf kv.1 := by
      obtain ⟨⟨a, b⟩, hm⟩ := kv
      simp
    omega

/-! ### Capture store (captureStore.ts) -/

/-- JS `Map.set` on the id index, modeled pointwise. -/
def mapSet (m : String → Option StoredCapture) (key : String) (entry : StoredCapture) :
    String → Option StoredCapture :=
  fun k => if k = key then some entry else m k

/-- JS `Map.delete` on the id index, modeled pointwise. -/
def mapDelete (m : String → Option StoredCapture) (key : String) :
    String → Option StoredCapture :=
  fun k => if k = key then none else m k

/-- The mutable state of an `InMemoryCaptureStore`: the newest-first list of
stored pairs, the id index, and the configured maximum (default 500). -/
structure InMemoryCaptureStore where
  captures : List StoredCapture
  byId : String → Option StoredCapture
  maxCaptures : Nat

/-- A freshly constructed store (`new InMemoryCaptureStore(maxCaptures)`). -/
def emptyStore (maxCaptures : Nat) : InMemoryCaptureStore :=
  { captures := [], byId := fun _ => none, maxCaptures := maxCaptures }

/-- The private `prune` loop: while the list is longer than the maximum, pop
the last (oldest) entry and delete its id from the index. -/
def InMemoryCaptureStore.prune (s : InMemoryCaptureStore) : InMemoryCaptureStore :=
  if s.captures.length ≤ s.maxCaptures then s
  else
    match h : s.captures.getLast? with
    | none => s
    | some removed =>
      InMemoryCaptureStore.prune
        { s with captures := s.captures.dropLast,
                 byId := mapDelete s.byId removed.record.id }
termination_by s.captures.length
decreasing_by
  simp only [List.length_dropLast]
  have hne : s.captures ≠ [] := by
    intro hnil
    rw [hnil] at h
    exact Option.noConfusion h
  have : 0 < s.captures.length := List.length_pos.mpr hne
  omega

/-- `add(record, replay)`: prepend the new pair, index it by the record id,
then prune from the tail. -/
def InMemoryCaptureStore.add (s : InMemoryCaptureStore)
    (record : CaptureRecord) (replay : ReplaySource) : InMemoryCaptureStore :=
  InMemoryCaptureStore.prune
    { s with captures := { record := record, replay := replay } :: s.captures,
             byId := mapSet s.byId record.id { record := record, replay := replay } }

/-- `list()`: the records, newest first. -/
def InMemoryCaptureStore.list (s : InMemoryCaptureStore) : List CaptureRecord :=
  s.captures.map (fun e => e.record)

/-- `get(id)`: the record stored under `id`, if any. -/
def InMemoryCaptureStore.get (s : InMemoryCaptureStore) (id : String) :
    Option CaptureRecord :=
  (s.byId id).map (fun e => e.record)

/-- `getReplaySource(id)`: the replay source stored under `id`, if any. -/
def InMemoryCaptureStore.getReplaySource (s : InMemoryCaptureStore) (id : String) :
    Option ReplaySource :=
  (s.byId id).map (fun e => e.replay)

/-- The protected `hydrate(entries)` loop: push every entry to the back of the
list and index it, then prune. -/
def InMemoryCaptureStore.hydrate (s : InMemoryCaptureStore)
    (entries : List StoredCapture) : InMemoryCaptureStore :=
  InMemoryCaptureStore.prune
    (entries.foldl
      (fun st e =>
        { st with captures := st.captures ++ [e], byId := mapSet st.byId e.record.id e })
      s)

/-- A whole sequence of `add` calls, in call order (oldest first). -/
def InMemoryCaptureStore.addAll (s : InMemoryCaptureStore)
    (adds : List (CaptureRecord × ReplaySource)) : InMemoryCaptureStore :=
  adds.foldl (fun st p => st.add p.1 p.2) s

/-- The `parsed?.captures` extraction of FileCaptureStore.load:
`Array.isArray(parsed?.captures) ? parsed.captures : []` yields the array
exactly when the parsed document is an object whose captures field is an
array. -/
def jCaptures (j : Json) : Option (List Json) :=
  match j with
  | .obj fields =>
    match (fields.find? (fun kv => kv.1 = "captures")).map (fun kv => kv.2) with
    | some (Json.arr xs) => some xs
    | _ => none
  | _ => none

/-- The observable state of a FileCaptureStore right after construction.
`slots` is the raw `captures` array of the store: hydrate pushes each raw
entry *before* reading `entry.record.id`, so a non-conforming raw value can
end up as a pushed slot — modeled as `none`, a slot whose `record` reads as
undefined.  When every entry conformed, hydrate completed, prune ran, and
every slot is `some`. -/
structure LoadedStore where
  slots : List (Option StoredCapture)
  byId : String → Option StoredCapture

/-- A fully typed store viewed as a loaded store (every slot conforming). -/
def liftStore (s : InMemoryCaptureStore) : LoadedStore :=
  { slots := s.captures.map some, byId := s.byId }

/-- `list()` on a loaded store: `captures.map((entry) => entry.record)`; on a
junk slot `entry.record` reads as undefined (`none`). -/
def LoadedStore.list (s : LoadedStore) : List (Option CaptureRecord) :=
  s.slots.map (fun slot => slot.map (fun e => e.record))

/-- Front-to-back decode of the raw captures array: `some es` exactly when
every element conforms to StoredCapture — then hydrate's loop completes and
prune runs — and `none` when some element's `record.id` access throws. -/
def decodeEntries (P : Prims) : List Json → Option (List StoredCapture)
  | [] => some []
  | x :: rest =>
    match P.decodeEntry x with
    | some e => (decodeEntries P rest).map (fun es => e :: es)
    | none => none

/-- Hydrate's loop over the raw captures array when some entry does not
conform (captureStore.ts lines 51-57): each iteration pushes the raw entry
first and then reads `entry.record.id`; for a conforming entry that indexes
it and continues, for a non-conforming entry the read throws a TypeError
*after* the junk value has been pushed, aborting the loop — the prune after
the loop never runs and load's catch swallows the exception. -/
def abortedHydrate (P : Prims) : List Json → LoadedStore → LoadedStore
  | [], st => st
  | x :: rest, st =>
    match P.decodeEntry x with
    | some e =>
      abortedHydrate P rest
        { slots := st.slots ++ [some e], byId := mapSet st.byId e.record.id e }
    | none => { slots := st.slots ++ [none], byId := st.byId }

/-- `new FileCaptureStore(filePath, maxCaptures)` startup: if the persistence
file is absent start empty; otherwise try to parse it and hydrate from its
captures array (nothing when parsing fails or there is no captures array).
The branch on `decodeEntries` mirrors whether hydrate's loop completes:
when every raw entry conforms, the loop is the typed push/index fold and
prune runs — exactly `InMemoryCaptureStore.hydrate` (see
`decode_complete_fold`) — while a non-conforming entry makes
`entry.record.id` throw mid-loop with the junk value already pushed, prune
skipped, and the exception swallowed by load's catch. -/
def FileCaptureStore.load (P : Prims) (maxCaptures : Nat) (fileContent : Option String) :
    LoadedStore :=
  match fileContent with
  | none => { slots := [], byId := fun _ => none }
  | some raw =>
    match P.jsonParse raw with
    | none => { slots := [], byId := fun _ => none }
    | some parsed =>
      match jCaptures parsed with
      | none => liftStore ((emptyStore maxCaptures).hydrate [])
      | some xs =>
        match decodeEntries P xs with
        | some es => liftStore ((emptyStore maxCaptures).hydrate es)
        | none => abortedHydrate P xs { slots := [], byId := fun _ => none }

/-! ### Server pipeline (index.ts) -/

/-- A header value as Fastify delivers it: a single string or a joined list. -/
inductive HeaderValue where
  | str (s : String) : HeaderValue
  | arr (values : List String) : HeaderValue
deriving DecidableEq

/-- The fixed hop-by-hop exclusion set (index.ts, `hopByHopHeaders`). -/
def hopByHopHeaders : List String :=
  ["connection", "content-length", "host", "transfer-encoding", "x-proxylab-target"]

/-- Membership test against the hop-by-hop set on the lowercased name. -/
def hopByHop (name : String) : Bool :=
  hopByHopHeaders.contains (lowerString name)

/-- Whether a string's last character is a slash (JS `basePath.endsWith("/")`). -/
def endsWithSlash (s : String) : Bool :=
  match s.data.getLast? with
  | some c => c = '/'
  | none => false

/-- Whether a string's first character is a slash (JS `suffix.startsWith("/")`). -/
def startsWithSlash (s : String) : Bool :=
  match s.data with
  | c :: _ => c = '/'
  | [] => false

/-- Path join of the target origin path and the wildcard sub-path
(index.ts, `joinPath`): strip one trailing slash from the base, ensure the
suffix starts with a slash, and concatenate (the suffix alone if the stripped
base is empty). -/
def joinPath (basePath suffix : String) : String :=
  let left := if endsWithSlash basePath then String.mk basePath.data.dropLast else basePath
  let right := if startsWithSlash suffix then suffix else "/" ++ suffix
  if left.length = 0 then right else left ++ right

/-- The base path with one trailing slash removed (reference form used to
characterize `joinPath`). -/
def stripTrail (s : String) : String :=
  if endsWithSlash s then String.mk s.data.dropLast else s

/-- The sub-path with one leading slash removed (reference form used to
characterize `joinPath`). -/
def stripLead (s : String) : String :=
  if startsWithSlash s then String.mk (s.data.drop 1) else s

/-- Whether a character list contains two consecutive slashes. -/
def dsAux : List Char → Bool
  | c1 :: c2 :: rest => (c1 = '/' && c2 = '/') || dsAux (c2 :: rest)
  | _ => false

/-- Whether a string contains a doubled slash. -/
def hasDoubleSlash (s : String) : Bool :=
  dsAux s.data

/-- Header normalization (index.ts, `normalizeHeaders`): skip hop-by-hop
names, keep string values, join non-empty multi-valued headers with a comma
and space, and drop empty lists. -/
def normalizeHeaders (headers : List (String × HeaderValue)) : List (String × String) :=
  headers.foldl
    (fun result kv =>
      if hopByHop kv.1 then result
      else
        match kv.2 with
        | .str s => result ++ [(kv.1, s)]
        | .arr values =>
          if values.length > 0 then result ++ [(kv.1, String.intercalate ", " values)]
          else result)
    []

/-- JS object lookup in a string record (first entry wins; records built by
the source have unique keys). -/
def recordGet (m : List (String × String)) (k : String) : Option String :=
  (m.find? (fun kv => kv.1 = k)).map (fun kv => kv.2)

/-- JS object spread `{...base, ...override}`: base entries keep their
position with overridden values, new override keys are appended. -/
def recordMerge (base override : List (String × String)) : List (String × String) :=
  base.map (fun kv =>
    match recordGet override kv.1 with
    | some w => (kv.1, w)
    | none => kv) ++
  override.filter (fun kv => (recordGet base kv.1).isNone)

/-- Lookup of the reserved target header in the raw inbound header record. -/
def headerLookup (headers : List (String × HeaderValue)) (name : String) :
    Option HeaderValue :=
  (headers.find? (fun kv => kv.1 = name)).map (fun kv => kv.2)

/-- `searchParams.get(key)`: the first value under `key`, or null. -/
def searchParamsGet (query : List (String × String)) (key : String) : Option String :=
  (query.find? (fun kv => kv.1 = key)).map (fun kv => kv.2)

/-- Raw target selection (index.ts lines 143-150): the header value when it is
a single string, else the query parameter; the JS falsiness check `!rawTarget`
rejects both a missing value and the empty string. -/
def resolveRawTarget (fromHeader : Option HeaderValue) (fromQuery : Option String) :
    Option String :=
  let raw : Option String :=
    match fromHeader with
    | some (.str s) => some s
    | _ => fromQuery
  match raw with
  | some t => if t.length = 0 then none else some t
  | none => none

/-- The InvalidTarget error message thrown when no target is supplied. -/
def missingTargetMessage : String :=
  "Missing target URL. Set x-proxylab-target header or target query."

/-- Resolution of the upstream URL (index.ts lines 152-158): parse the raw
target, join the wildcard sub-path onto its pathname, and append every
non-target inbound query parameter. -/
def resolveTargetUrl (P : Prims) (rawTarget wildcard : String)
    (query : List (String × String)) : Option UrlModel :=
  (P.urlParse rawTarget).map (fun base =>
    { base with pathname := joinPath base.pathname wildcard,
                search := base.search ++ query.filter (fun kv => kv.1 ≠ "target") })

/-- An inbound proxied request after framework decoding: method, the wildcard
sub-path, the parsed query list (in order), the raw header record, and the
body coerced to text (`toRawBody`). -/
structure InboundRequest where
  method : String
  wildcard : String
  query : List (String × String)
  headers : List (String × HeaderValue)
  body : Option String
deriving DecidableEq

/-- `buildReplaySourceFromRequest` (index.ts lines 135-168): pick the raw
target from header or query (failing with the missing-target message when
neither is usable), resolve the upstream URL (failing when the URL
constructor throws), and assemble the canonical replay source. -/
def buildReplaySourceFromRequest (P : Prims) (freshId : String) (req : InboundRequest) :
    Except String ReplaySource :=
  match resolveRawTarget (headerLookup req.headers "x-proxylab-target")
      (searchParamsGet req.query "target") with
  | none => .error missingTargetMessage
  | some rawTarget =>
    match resolveTargetUrl P rawTarget req.wildcard req.query with
    | none => .error "Invalid URL"
    | some resolved =>
      .ok { id := freshId,
            method := upperString req.method,
            path := "/" ++ req.wildcard,
            targetUrl := P.urlToString resolved,
            headers := normalizeHeaders req.headers,
            body := req.body }

/-- The response-side data handed to `withCapture` by a route handler. -/
structure ResponseMeta where
  statusCode : Nat
  durationMs : Nat
  headers : List (String × String)
  body : Option String
  replayOf : Option String
deriving DecidableEq

/-- `replay.body ? Buffer.byteLength(replay.body) : 0` (empty strings are
falsy in JS). -/
def bodyByteLength (body : Option String) : Nat :=
  match body with
  | some s => if s.length = 0 then 0 else s.utf8ByteSize
  | none => 0

/-- Widening of an all-string header record to the optional-value record type
accepted by `redactHeaders`. -/
def optionStrings (headers : List (String × String)) : List (String × Option String) :=
  headers.map (fun kv => (kv.1, some kv.2))

/-- `withCapture` (index.ts lines 68-106): build the redacted capture record
(with a freshly generated id and timestamp, supplied here as arguments) and
add it to the store together with the unredacted replay source. -/
def withCapture (P : Prims) (freshId createdAt : String) (store : InMemoryCaptureStore)
    (replay : ReplaySource) (response : ResponseMeta) :
    CaptureRecord × InMemoryCaptureStore :=
  let requestContentType := recordGet replay.headers "content-type"
  let responseContentType := recordGet response.headers "content-type"
  let responseBody := response.body.getD ""
  let record : CaptureRecord :=
    { id := freshId,
      createdAt := createdAt,
      replayOf := response.replayOf,
      method := upperString replay.method,
      targetUrl := replay.targetUrl,
      path := replay.path,
      statusCode := response.statusCode,
      durationMs := response.durationMs,
      request :=
        { headers := redactHeaders (optionStrings replay.headers),
          body := redactBody P replay.body requestContentType,
          size := bodyByteLength replay.body },
      response :=
        { headers := redactHeaders (optionStrings response.headers),
          body := redactBody P (some responseBody) responseContentType,
          size := responseBody.utf8ByteSize } }
  (record, store.add record replay)

/-- What a route handler produces for the caller.  `unhandledException` marks
an error escaping the handler to the framework's generic error response. -/
inductive HandlerReply where
  | badRequest (message : String) : HandlerReply
  | notFound (message : String) : HandlerReply
  | gatewayError (message : String) : HandlerReply
  | relayed (statusCode : Nat) (headers : List (String × String)) (body : String) : HandlerReply
  | created (record : CaptureRecord) : HandlerReply
  | unhandledException : HandlerReply
deriving DecidableEq

/-- An upstream response as `proxyToTarget` returns it. -/
structure UpstreamResponse where
  statusCode : Nat
  headers : List (String × String)
  body : String
deriving DecidableEq

/-- The `/proxy/*` route handler (index.ts lines 245-283).  The outcome of
the outbound fetch is passed in: `.error ()` models a network-level failure
(the fetch promise rejecting), `.ok` an upstream response of any status.
When target resolution fails the handler answers 400 before the fetch is
ever issued (its result is simply unused) and the store is untouched; a
fetch failure is caught and answered with the fixed 502 gateway message. -/
def proxyHandler (P : Prims) (freshSourceId freshRecordId createdAt : String)
    (durationMs : Nat) (req : InboundRequest)
    (upstream : Except Unit UpstreamResponse) (store : InMemoryCaptureStore) :
    HandlerReply × InMemoryCaptureStore :=
  match buildReplaySourceFromRequest P freshSourceId req with
  | .error message => (.badRequest message, store)
  | .ok replay =>
    match upstream with
    | .error _ => (.gatewayError "Failed to reach target API", store)
    | .ok u =>
      let result := withCapture P freshRecordId createdAt store replay
        { statusCode := u.statusCode, durationMs := durationMs, headers := u.headers,
          body := some u.body, replayOf := none }
      (.relayed u.statusCode (u.headers.filter (fun kv => !hopByHop kv.1)) u.body,
       result.2)

/-- The optional override set of a replay request (types.ts,
`ReplayRequest.overrides`): body distinguishes absent (`none`), explicit null
(`some none`) and a replacement value (`some (some b)`). -/
structure ReplayOverrides where
  method : Option String
  targetUrl : Option String
  headers : Option (List (String × String))
  body : Option (Option String)
deriving DecidableEq

/-- A replay request payload. -/
structure ReplayPayload where
  id : String
  overrides : Option ReplayOverrides
deriving DecidableEq

/-- The override merge of the replay route (index.ts lines 218-227): method
(uppercased) and targetUrl replaced wholesale when overridden, headers spread
with override keys winning, body following the null/absent/value tri-state. -/
def mergeReplay (source : ReplaySource) (overrides : Option ReplayOverrides) :
    ReplaySource :=
  { source with
    method :=
      match overrides.bind (fun o => o.method) with
      | some m => upperString m
      | none => source.method,
    targetUrl := (overrides.bind (fun o => o.targetUrl)).getD source.targetUrl,
    headers := recordMerge source.headers ((overrides.bind (fun o => o.headers)).getD []),
    body :=
      match overrides.bind (fun o => o.body) with
      | some none => none
      | some (some b) => some b
      | none => source.body }

/-- The `/api/replay` route handler (index.ts lines 207-243): reject a falsy
id, look up the stored replay source (404 when unknown), merge the overrides,
issue the upstream call, and capture the new record with `replayOf` set to
the original id.  The fetch is not wrapped in try/catch here: a network
failure escapes the handler (`unhandledException`). -/
def replayHandler (P : Prims) (freshRecordId createdAt : String) (durationMs : Nat)
    (store : InMemoryCaptureStore) (payload : ReplayPayload)
    (upstream : Except Unit UpstreamResponse) :
    HandlerReply × InMemoryCaptureStore :=
  if payload.id.length = 0 then (.badRequest "Replay id is required", store)
  else
    match store.getReplaySource payload.id with
    | none => (.notFound "Capture not found", store)
    | some source =>
      let replay := mergeReplay source payload.overrides
      match upstream with
      | .error _ => (.unhandledException, store)
      | .ok u =>
        let result := withCapture P freshRecordId createdAt store replay
          { statusCode := u.statusCode, durationMs := durationMs, headers := u.headers,
            body := some u.body, replayOf := some payload.id }
        (.created result.1, result.2)

/-! ### Helper definitions used by the verification statements -/

/-- The stored pair built by one `add` call. -/
def mkStored (p : CaptureRecord × ReplaySource) : StoredCapture :=
  { record := p.1, replay := p.2 }

/-- Coupling invariant of the store: the id index points exactly at retained
pairs under their record id, every retained pair is indexed, and retained
record ids are pairwise distinct. -/
def StoreInv (s : InMemoryCaptureStore) : Prop :=
  (∀ id e, s.byId id = some e → e ∈ s.captures ∧ e.record.id = id) ∧
  (∀ e, e ∈ s.captures → s.byId e.record.id = some e) ∧
  (s.captures.map (fun e => e.record.id)).Nodup

/-- A minimal concrete replay source, used by concrete witness instances. -/
def sampleSource (id : String) : ReplaySource :=
  { id := id, method := "POST", targetUrl := "https://api.example.com/v1/messages",
    path := "/v1/messages", headers := [], body := none }

/-- A minimal concrete capture record, used by concrete witness instances. -/
def sampleRecord (id : String) : CaptureRecord :=
  { id := id, createdAt := "2026-02-01T00:00:00.000Z", replayOf := none,
    method := "POST", targetUrl := "https://api.example.com/v1/messages",
    path := "/v1/messages", statusCode := 200, durationMs := 12,
    request := { headers := [], body := none, size := 0 },
    response := { headers := [], body := none, size := 0 } }

/-- A concrete stored pair for witness instances. -/
def sampleStored (id : String) : StoredCapture :=
  { record := sampleRecord id, replay := sampleSource id }

/-- Trivial concrete platform primitives for witness instances: JSON never
parses, serialization is constant, the text fallback is the identity. -/
def samplePrims : Prims :=
  { jsonParse := fun _ => none,
    stringify := fun _ => "",
    redactTextModel := fun s => s,
    urlParse := fun _ => none,
    urlToString := fun _ => "",
    decodeEntry := fun _ => some (sampleStored "decoded") }

/-- The spec's example JSON body, parsed. -/
def c3Json : Json :=
  .obj [("prompt", .str "hello"), ("apiKey", .str "sk-live-key")]

/-- Concrete platform primitives whose JSON parser recognizes the spec's
example body, used by the C3 witness instance. -/
def c3Prims : Prims :=
  { jsonParse := fun s =>
      if s = "\x7b\"prompt\":\"hello\",\"apiKey\":\"sk-live-key\"\x7d" then some c3Json else none,
    stringify := fun _ => "serialized",
    redactTextModel := fun s => s,
    urlParse := fun _ => none,
    urlToString := fun _ => "",
    decodeEntry := fun _ => some (sampleStored "decoded") }

/-- The C7 failing file content, parsed: a well-formed JSON document whose
captures array holds the non-conforming entry 42. -/
def c7Json : Json :=
  .obj [("captures", .arr [.num 42])]

/-- Concrete platform primitives for the C7 failing input: the JSON parser
recognizes the failing file content, and no raw entry conforms to
StoredCapture (reading `entry.record.id` on the number 42 throws). -/
def c7Prims : Prims :=
  { jsonParse := fun s =>
      if s = "\x7b\"captures\":[42]\x7d" then some c7Json else none,
    stringify := fun _ => "",
    redactTextModel := fun s => s,
    urlParse := fun _ => none,
    urlToString := fun _ => "",
    decodeEntry := fun _ => none }

/-- A concrete upstream response for witness instances. -/
def sampleUpstream : UpstreamResponse :=
  { statusCode := 200, headers := [], body := "" }

/-- Concrete platform primitives whose URL parser accepts everything, used by
witness instances that need target resolution to succeed. -/
def urlPrims : Prims :=
  { samplePrims with
    urlParse := fun _ => some { origin := "https://a", pathname := "/v1", search := [] } }

/-! ### Store lemmas -/

theorem prune_eq_of_le (s : InMemoryCaptureStore)
    (h : s.captures.length ≤ s.maxCaptures) : s.prune = s := by
  rw [InMemoryCaptureStore.prune]
  simp [h]

theorem prune_step (s : InMemoryCaptureStore) (hle : ¬ s.captures.length ≤ s.maxCaptures)
    (removed : StoredCapture) (h : s.captures.getLast? = some removed) :
    s.prune = InMemoryCaptureStore.prune
      { s with captures := s.captures.dropLast,
               byId := mapDelete s.byId removed.record.id } := by
  rw [InMemoryCaptureStore.prune, if_neg hle]
  split
  · next heq =>
    rw [h] at heq
    exact Option.noConfusion heq
  · next r heq =>
    rw [h] at heq
    injection heq with heq2
    rw [← heq2]

theorem prune_captures (s : InMemoryCaptureStore) :
    s.prune.captures = s.captures.take s.maxCaptures := by
  induction s using InMemoryCaptureStore.prune.induct with
  | case1 s hle =>
    rw [prune_eq_of_le s hle, List.take_of_length_le hle]
  | case2 s hle h =>
    exact absurd (by simp [List.getLast?_eq_none_iff.mp h]) hle
  | case3 s hle removed h ih =>
    rw [prune_step s hle removed h, ih]
    simp only [List.dropLast_eq_take, List.take_take]
    congr 1
    omega

theorem prune_maxCaptures (s : InMemoryCaptureStore) :
    s.prune.maxCaptures = s.maxCaptures := by
  induction s using InMemoryCaptureStore.prune.induct with
  | case1 s hle => rw [prune_eq_of_le s hle]
  | case2 s hle h => exact absurd (by simp [List.getLast?_eq_none_iff.mp h]) hle
  | case3 s hle removed h ih =>
    rw [prune_step s hle removed h, ih]

theorem add_captures (s : InMemoryCaptureStore) (r : CaptureRecord) (rep : ReplaySource) :
    (s.add r rep).captures = (mkStored (r, rep) :: s.captures).take s.maxCaptures := by
  rw [InMemoryCaptureStore.add, prune_captures]
  simp [mkStored]

theorem add_maxCaptures (s : InMemoryCaptureStore) (r : CaptureRecord) (rep : ReplaySource) :
    (s.add r rep).maxCaptures = s.maxCaptures := by
  rw [InMemoryCaptureStore.add, prune_maxCaptures]

theorem take_append_take {α : Type} (A B : List α) (n : Nat) :
    (A ++ B.take n).take n = (A ++ B).take n := by
  rw [List.take_append_eq_append_take, List.take_append_eq_append_take, List.take_take]
  rw [inf_eq_left.mpr (Nat.sub_le n A.length)]

theorem addAll_captures (adds : List (CaptureRecord × ReplaySource))
    (s : InMemoryCaptureStore) (hle : s.captures.length ≤ s.maxCaptures) :
    (s.addAll adds).captures = ((adds.reverse.map mkStored) ++ s.captures).take s.maxCaptures ∧
    (s.addAll adds).maxCaptures = s.maxCaptures := by
  induction adds generalizing s with
  | nil =>
    simp only [InMemoryCaptureStore.addAll, List.foldl_nil, List.reverse_nil, List.map_nil,
      List.nil_append]
    exact ⟨(List.take_of_length_le hle).symm, trivial⟩
  | cons p rest ih =>
    have hstep : (s.add p.1 p.2).captures = (mkStored p :: s.captures).take s.maxCaptures :=
      add_captures s p.1 p.2
    have hmax := add_maxCaptures s p.1 p.2
    have hle2 : (s.add p.1 p.2).captures.length ≤ (s.add p.1 p.2).maxCaptures := by
      rw [hstep, hmax]
      exact List.length_take_le _ _
    have hrec := ih (s.add p.1 p.2) hle2
    constructor
    · rw [show (s.addAll (p :: rest)) = ((s.add p.1 p.2).addAll rest) from rfl]
      rw [hrec.1, hstep, hmax, take_append_take]
      simp [List.map_append]
    · rw [show (s.addAll (p :: rest)) = ((s.add p.1 p.2).addAll rest) from rfl]
      rw [hrec.2, hmax]

/-- Claim C1: for every sequence of `add` calls on a capture store configured
with maximum N, `list()` has length at most N and equals the N most recently
added records in newest-first order (each insertion prepends the new pair and
evicts from the tail while the size exceeds N); once more than N records have
been added the length is exactly N. -/
theorem capture_store_bound_newest_first (maxCaptures : Nat)
    (adds : List (CaptureRecord × ReplaySource)) :
    ((emptyStore maxCaptures).addAll adds).list.length ≤ maxCaptures ∧
    ((emptyStore maxCaptures).addAll adds).list =
      (adds.reverse.map (fun p => p.1)).take maxCaptures ∧
    (maxCaptures < adds.length →
      ((emptyStore maxCaptures).addAll adds).list.length = maxCaptures) := by
  have hbase : (emptyStore maxCaptures).captures.length ≤ (emptyStore maxCaptures).maxCaptures := by
    simp [emptyStore]
  have hchar := addAll_captures adds (emptyStore maxCaptures) hbase
  have hcap : ((emptyStore maxCaptures).addAll adds).captures =
      (adds.reverse.map mkStored).take maxCaptures := by
    rw [hchar.1]
    simp [emptyStore]
  have hlist : ((emptyStore maxCaptures).addAll adds).list =
      (adds.reverse.map (fun p => p.1)).take maxCaptures := by
    rw [InMemoryCaptureStore.list, hcap, List.map_take, List.map_map]
    rfl
  refine ⟨?_, hlist, ?_⟩
  · rw [hlist]
    exact (List.length_take_le _ _)
  · intro hgt
    rw [hlist, List.length_take]
    simp only [List.length_map, List.length_reverse]
    omega

/-- Witness for C1 at a concrete instance: two adds on a store of maximum 1
leave exactly one record. -/
theorem capture_store_bound_newest_first_witness :
    1 < ([(sampleRecord "one", sampleSource "one"),
          (sampleRecord "two", sampleSource "two")] : List (CaptureRecord × ReplaySource)).length ∧
    ((emptyStore 1).addAll
      [(sampleRecord "one", sampleSource "one"),
       (sampleRecord "two", sampleSource "two")]).list.length = 1 :=
  ⟨by simp,
   (capture_store_bound_newest_first 1
      [(sampleRecord "one", sampleSource "one"),
       (sampleRecord "two", sampleSource "two")]).2.2 (by simp)⟩

theorem inv_drop (s : InMemoryCaptureStore) (removed : StoredCapture)
    (h : s.captures.getLast? = some removed) (hInv : StoreInv s) :
    StoreInv { s with captures := s.captures.dropLast,
                      byId := mapDelete s.byId removed.record.id } := by
  obtain ⟨h1, h2, h3⟩ := hInv
  have hne : s.captures ≠ [] := by
    intro hnil
    rw [hnil] at h
    exact Option.noConfusion h
  have hsplit : s.captures.dropLast ++ [removed] = s.captures := by
    have hd := List.dropLast_append_getLast hne
    rw [List.getLast?_eq_getLast s.captures hne] at h
    injection h with h4
    rw [← h4]
    exact hd
  have hnd' : (s.captures.dropLast.map (fun e => e.record.id)).Nodup :=
    List.Nodup.sublist (List.Sublist.map _ (List.dropLast_sublist s.captures)) h3
  have hdisj : ∀ e ∈ s.captures.dropLast, e.record.id ≠ removed.record.id := by
    intro e he
    have h3' : ((s.captures.dropLast ++ [removed]).map (fun e => e.record.id)).Nodup := by
      rw [hsplit]
      exact h3
    rw [List.map_append] at h3'
    have := (List.nodup_append.mp h3').2.2
    have hmem : e.record.id ∈ s.captures.dropLast.map (fun e => e.record.id) :=
      List.mem_map_of_mem _ he
    intro heq
    exact (List.disjoint_left.mp this hmem) (by simp [heq])
  refine ⟨?_, ?_, hnd'⟩
  · intro id e hget
    simp only [mapDelete] at hget
    by_cases hid : id = removed.record.id
    · rw [if_pos hid] at hget
      exact Option.noConfusion hget
    · rw [if_neg hid] at hget
      obtain ⟨hmem, hide⟩ := h1 id e hget
      rw [← hsplit] at hmem
      rcases List.mem_append.mp hmem with hin | hin
      · exact ⟨hin, hide⟩
      · exfalso
        have : e = removed := by simpa using hin
        rw [this] at hide
        exact hid (hide ▸ rfl)
  · intro e he
    have hmem : e ∈ s.captures := by
      rw [← hsplit]
      exact List.mem_append.mpr (Or.inl he)
    have hgot := h2 e hmem
    simp only [mapDelete]
    rw [if_neg (hdisj e he)]
    exact hgot

theorem prune_inv (s : InMemoryCaptureStore) : StoreInv s → StoreInv s.prune := by
  induction s using InMemoryCaptureStore.prune.induct with
  | case1 s hle =>
    intro hInv
    rw [prune_eq_of_le s hle]
    exact hInv
  | case2 s hle h =>
    exact absurd (by simp [List.getLast?_eq_none_iff.mp h]) hle
  | case3 s hle removed h ih =>
    intro hInv
    rw [prune_step s hle removed h]
    exact ih (inv_drop s removed h hInv)

theorem inv_push_front (s : InMemoryCaptureStore) (r : CaptureRecord) (rep : ReplaySource)
    (hInv : StoreInv s) (hfresh : ∀ e ∈ s.captures, e.record.id ≠ r.id) :
    StoreInv { s with captures := mkStored (r, rep) :: s.captures,
                      byId := mapSet s.byId r.id (mkStored (r, rep)) } := by
  obtain ⟨h1, h2, h3⟩ := hInv
  refine ⟨?_, ?_, ?_⟩
  · intro id e hget
    simp only [mapSet] at hget
    by_cases hid : id = r.id
    · rw [if_pos hid] at hget
      injection hget with hg
      rw [← hg]
      exact ⟨List.mem_cons_self _ _, by simp [mkStored, hid]⟩
    · rw [if_neg hid] at hget
      obtain ⟨hmem, hide⟩ := h1 id e hget
      exact ⟨List.mem_cons_of_mem _ hmem, hide⟩
  · intro e he
    rcases List.mem_cons.mp he with hhd | htl
    · simp [mapSet, hhd, mkStored]
    · simp only [mapSet]
      rw [if_neg (hfresh e htl)]
      exact h2 e htl
  · simp only [List.map_cons, List.nodup_cons]
    refine ⟨?_, h3⟩
    intro hmem
    rcases List.mem_map.mp hmem with ⟨e, he, heq⟩
    exact hfresh e he (by simpa [mkStored] using heq)

theorem add_inv (s : InMemoryCaptureStore) (r : CaptureRecord) (rep : ReplaySource)
    (hInv : StoreInv s) (hfresh : ∀ e ∈ s.captures, e.record.id ≠ r.id) :
    StoreInv (s.add r rep) := by
  rw [InMemoryCaptureStore.add]
  exact prune_inv _ (by simpa [mkStored] using inv_push_front s r rep hInv hfresh)

theorem addAll_inv (adds : List (CaptureRecord × ReplaySource))
    (s : InMemoryCaptureStore) (seen : List String)
    (hInv : StoreInv s) (hsub : ∀ e ∈ s.captures, e.record.id ∈ seen)
    (hfresh : ∀ p ∈ adds, p.1.id ∉ seen)
    (hnd : (adds.map (fun p => p.1.id)).Nodup) :
    StoreInv (s.addAll adds) ∧
    ∀ e ∈ (s.addAll adds).captures,
      e.record.id ∈ seen ++ adds.map (fun p => p.1.id) := by
  induction adds generalizing s seen with
  | nil =>
    refine ⟨hInv, ?_⟩
    intro e he
    simpa using hsub e he
  | cons p rest ih =>
    have hfr : ∀ e ∈ s.captures, e.record.id ≠ p.1.id := by
      intro e he heq
      exact hfresh p (List.mem_cons_self _ _) (heq ▸ hsub e he)
    have hInv1 : StoreInv (s.add p.1 p.2) := add_inv s p.1 p.2 hInv hfr
    have hsub1 : ∀ e ∈ (s.add p.1 p.2).captures, e.record.id ∈ seen ++ [p.1.id] := by
      intro e he
      rw [add_captures] at he
      rcases List.mem_cons.mp (List.mem_of_mem_take he) with hhd | htl
      · simp [hhd, mkStored]
      · exact List.mem_append.mpr (Or.inl (hsub e htl))
    rw [List.map_cons] at hnd
    have hfresh1 : ∀ q ∈ rest, q.1.id ∉ seen ++ [p.1.id] := by
      intro q hq hmem
      rcases List.mem_append.mp hmem with hs | hp
      · exact hfresh q (List.mem_cons_of_mem _ hq) hs
      · have hqp : q.1.id = p.1.id := by simpa using hp
        have := (List.nodup_cons.mp hnd).1
        exact this (hqp ▸ List.mem_map_of_mem _ hq)
    have hnd1 : (rest.map (fun p => p.1.id)).Nodup :=
      (List.nodup_cons.mp hnd).2
    have hrec := ih (s.add p.1 p.2) (seen ++ [p.1.id]) hInv1 hsub1 hfresh1 hnd1
    refine ⟨hrec.1, ?_⟩
    intro e he
    have := hrec.2 e he
    simpa [List.append_assoc] using this

/-- Claim C2 counterexample: a reachable store state (one `withCapture` call
on the empty store) in which the record retained under the fresh capture id
is coupled to a ReplaySource whose own identifier is the earlier, different
id generated for the replay source — so "the returned ReplaySource's
identifier equals the record's identifier" fails. -/
theorem record_replay_identifier_cex :
    (((withCapture samplePrims "rec-id" "now" (emptyStore 500) (sampleSource "src-id")
        { statusCode := 200, durationMs := 1, headers := [], body := some "",
          replayOf := none }).2.get "rec-id").map (fun r => r.id) = some "rec-id") ∧
    (((withCapture samplePrims "rec-id" "now" (emptyStore 500) (sampleSource "src-id")
        { statusCode := 200, durationMs := 1, headers := [], body := some "",
          replayOf := none }).2.getReplaySource "rec-id").map (fun r => r.id) = some "src-id") ∧
    ("src-id" : String) ≠ "rec-id" := by
  have hstore : (withCapture samplePrims "rec-id" "now" (emptyStore 500) (sampleSource "src-id")
      { statusCode := 200, durationMs := 1, headers := [], body := some "",
        replayOf := none }).2 =
      (emptyStore 500).add
        (withCapture samplePrims "rec-id" "now" (emptyStore 500) (sampleSource "src-id")
          { statusCode := 200, durationMs := 1, headers := [], body := some "",
            replayOf := none }).1 (sampleSource "src-id") := rfl
  have hid : (withCapture samplePrims "rec-id" "now" (emptyStore 500) (sampleSource "src-id")
      { statusCode := 200, durationMs := 1, headers := [], body := some "",
        replayOf := none }).1.id = "rec-id" := rfl
  have hadd : ((emptyStore 500).add
      (withCapture samplePrims "rec-id" "now" (emptyStore 500) (sampleSource "src-id")
        { statusCode := 200, durationMs := 1, headers := [], body := some "",
          replayOf := none }).1 (sampleSource "src-id")) =
      InMemoryCaptureStore.prune
        { captures := [mkStored ((withCapture samplePrims "rec-id" "now" (emptyStore 500)
            (sampleSource "src-id")
            { statusCode := 200, durationMs := 1, headers := [], body := some "",
              replayOf := none }).1, sampleSource "src-id")],
          byId := mapSet (fun _ => none) "rec-id"
            (mkStored ((withCapture samplePrims "rec-id" "now" (emptyStore 500)
              (sampleSource "src-id")
              { statusCode := 200, durationMs := 1, headers := [], body := some "",
                replayOf := none }).1, sampleSource "src-id")),
          maxCaptures := 500 } := rfl
  refine ⟨?_, ?_, by decide⟩
  · rw [hstore, hadd, prune_eq_of_le _ (by simp)]
    rfl
  · rw [hstore, hadd, prune_eq_of_le _ (by simp)]
    rfl

/-- Claim C2 (amended): in every store state reachable by a sequence of adds
with pairwise-distinct record ids, `get(id)` is defined exactly when
`getReplaySource(id)` is defined, both are drawn from the same retained pair
(whose record carries that id), and every retained pair is indexed under its
record id — so eviction removes the record, its index entry and its
ReplaySource together and neither index holds an orphaned entry.  The
ReplaySource's own `id` field is an independent identifier generated earlier
in the pipeline and need not equal the record's id (see the counterexample). -/
theorem store_record_replay_coupling (maxCaptures : Nat)
    (adds : List (CaptureRecord × ReplaySource))
    (hnd : (adds.map (fun p => p.1.id)).Nodup) :
    (∀ id, (((emptyStore maxCaptures).addAll adds).get id).isSome ↔
      (((emptyStore maxCaptures).addAll adds).getReplaySource id).isSome) ∧
    (∀ id e, ((emptyStore maxCaptures).addAll adds).byId id = some e →
      e ∈ ((emptyStore maxCaptures).addAll adds).captures ∧ e.record.id = id ∧
      ((emptyStore maxCaptures).addAll adds).get id = some e.record ∧
      ((emptyStore maxCaptures).addAll adds).getReplaySource id = some e.replay) ∧
    (∀ e ∈ ((emptyStore maxCaptures).addAll adds).captures,
      ((emptyStore maxCaptures).addAll adds).get e.record.id = some e.record ∧
      ((emptyStore maxCaptures).addAll adds).getReplaySource e.record.id = some e.replay) := by
  have hInv0 : StoreInv (emptyStore maxCaptures) := by
    refine ⟨?_, ?_, ?_⟩ <;> simp [emptyStore]
  have hInv : StoreInv ((emptyStore maxCaptures).addAll adds) :=
    (addAll_inv adds (emptyStore maxCaptures) [] hInv0 (by simp [emptyStore])
      (by simp) hnd).1
  obtain ⟨h1, h2, _⟩ := hInv
  refine ⟨?_, ?_, ?_⟩
  · intro id
    simp [InMemoryCaptureStore.get, InMemoryCaptureStore.getReplaySource]
  · intro id e hget
    obtain ⟨hmem, hide⟩ := h1 id e hget
    refine ⟨hmem, hide, ?_, ?_⟩
    · rw [InMemoryCaptureStore.get, hget]
      rfl
    · rw [InMemoryCaptureStore.getReplaySource, hget]
      rfl
  · intro e he
    have hget := h2 e he
    constructor
    · rw [InMemoryCaptureStore.get, hget]
      rfl
    · rw [InMemoryCaptureStore.getReplaySource, hget]
      rfl

/-- Witness for the amended C2 at a concrete instance. -/
theorem store_record_replay_coupling_witness :
    (([(sampleRecord "a", sampleSource "a")].map
        (fun p : CaptureRecord × ReplaySource => p.1.id)).Nodup) ∧
    (∀ id, (((emptyStore 500).addAll [(sampleRecord "a", sampleSource "a")]).get id).isSome ↔
      (((emptyStore 500).addAll
          [(sampleRecord "a", sampleSource "a")]).getReplaySource id).isSome) :=
  ⟨by simp, (store_record_replay_coupling 500 [(sampleRecord "a", sampleSource "a")]
      (by simp)).1⟩

theorem inv_push_back (s : InMemoryCaptureStore) (e' : StoredCapture)
    (hInv : StoreInv s) (hfresh : ∀ e ∈ s.captures, e.record.id ≠ e'.record.id) :
    StoreInv { s with captures := s.captures ++ [e'],
                      byId := mapSet s.byId e'.record.id e' } := by
  obtain ⟨h1, h2, h3⟩ := hInv
  refine ⟨?_, ?_, ?_⟩
  · intro id e hget
    simp only [mapSet] at hget
    by_cases hid : id = e'.record.id
    · rw [if_pos hid] at hget
      injection hget with hg
      rw [← hg]
      exact ⟨List.mem_append.mpr (Or.inr (by simp)), hid.symm⟩
    · rw [if_neg hid] at hget
      obtain ⟨hmem, hide⟩ := h1 id e hget
      exact ⟨List.mem_append.mpr (Or.inl hmem), hide⟩
  · intro e he
    rcases List.mem_append.mp he with htl | hhd
    · simp only [mapSet]
      rw [if_neg (hfresh e htl)]
      exact h2 e htl
    · have : e = e' := by simpa using hhd
      simp [mapSet, this]
  · rw [List.map_append, List.nodup_append]
    refine ⟨h3, by simp, ?_⟩
    rw [List.disjoint_left]
    intro a ha hb
    rcases List.mem_map.mp ha with ⟨e, he, heq⟩
    have : a = e'.record.id := by simpa using hb
    exact hfresh e he (heq ▸ this ▸ rfl)

theorem hydrate_fold_captures (entries : List StoredCapture) (s : InMemoryCaptureStore) :
    (entries.foldl
      (fun st e =>
        { st with captures := st.captures ++ [e], byId := mapSet st.byId e.record.id e })
      s).captures = s.captures ++ entries := by
  induction entries generalizing s with
  | nil => simp
  | cons e rest ih =>
    simp only [List.foldl_cons]
    rw [ih]
    simp

theorem hydrate_fold_maxCaptures (entries : List StoredCapture) (s : InMemoryCaptureStore) :
    (entries.foldl
      (fun st e =>
        { st with captures := st.captures ++ [e], byId := mapSet st.byId e.record.id e })
      s).maxCaptures = s.maxCaptures := by
  induction entries generalizing s with
  | nil => rfl
  | cons e rest ih =>
    simp only [List.foldl_cons]
    rw [ih]

theorem hydrate_fold_inv (entries : List StoredCapture) (s : InMemoryCaptureStore)
    (hInv : StoreInv s)
    (hdisj : ∀ e ∈ entries, ∀ e' ∈ s.captures, e'.record.id ≠ e.record.id)
    (hnd : (entries.map (fun e => e.record.id)).Nodup) :
    StoreInv (entries.foldl
      (fun st e =>
        { st with captures := st.captures ++ [e], byId := mapSet st.byId e.record.id e })
      s) := by
  induction entries generalizing s with
  | nil => exact hInv
  | cons e rest ih =>
    simp only [List.foldl_cons]
    rw [List.map_cons] at hnd
    apply ih
    · exact inv_push_back s e hInv (hdisj e (List.mem_cons_self _ _))
    · intro q hq e' he'
      rcases List.mem_append.mp he' with hold | hnew
      · exact hdisj q (List.mem_cons_of_mem _ hq) e' hold
      · have heq : e' = e := by simpa using hnew
        rw [heq]
        intro habs
        exact (List.nodup_cons.mp hnd).1 (habs ▸ List.mem_map_of_mem _ hq)
    · exact (List.nodup_cons.mp hnd).2

/-- Claim C10: hydrating a persisted snapshot applies the same tail pruning
as `add`: right after startup the list already has length at most the
maximum, keeps exactly the first (newest-first) entries of the file, the id
index holds exactly the retained entries, and `FileCaptureStore` startup on
a snapshot whose entries all conform is exactly such a hydration of the
decoded captures array. -/
theorem hydrate_prunes_persisted (maxCaptures : Nat) (entries : List StoredCapture)
    (hnd : (entries.map (fun e => e.record.id)).Nodup) :
    ((emptyStore maxCaptures).hydrate entries).captures = entries.take maxCaptures ∧
    ((emptyStore maxCaptures).hydrate entries).list =
      (entries.take maxCaptures).map (fun e => e.record) ∧
    ((emptyStore maxCaptures).hydrate entries).list.length ≤ maxCaptures ∧
    (∀ e ∈ entries.take maxCaptures,
      ((emptyStore maxCaptures).hydrate entries).get e.record.id = some e.record ∧
      ((emptyStore maxCaptures).hydrate entries).getReplaySource e.record.id =
        some e.replay) ∧
    (∀ id, (((emptyStore maxCaptures).hydrate entries).byId id).isSome →
      ∃ e ∈ entries.take maxCaptures, e.record.id = id) ∧
    (∀ P raw j xs es, Prims.jsonParse P raw = some j → jCaptures j = some xs →
      decodeEntries P xs = some es →
      FileCaptureStore.load P maxCaptures (some raw) =
        liftStore ((emptyStore maxCaptures).hydrate es)) := by
  have hcap : ((emptyStore maxCaptures).hydrate entries).captures =
      entries.take maxCaptures := by
    rw [InMemoryCaptureStore.hydrate, prune_captures, hydrate_fold_captures,
      hydrate_fold_maxCaptures]
    simp [emptyStore]
  have hInv : StoreInv ((emptyStore maxCaptures).hydrate entries) := by
    rw [InMemoryCaptureStore.hydrate]
    apply prune_inv
    apply hydrate_fold_inv
    · refine ⟨?_, ?_, ?_⟩ <;> simp [emptyStore]
    · simp [emptyStore]
    · exact hnd
  obtain ⟨h1, h2, _⟩ := hInv
  have hlist : ((emptyStore maxCaptures).hydrate entries).list =
      (entries.take maxCaptures).map (fun e => e.record) := by
    rw [InMemoryCaptureStore.list, hcap]
  refine ⟨hcap, hlist, ?_, ?_, ?_, ?_⟩
  · rw [hlist, List.length_map]
    exact List.length_take_le _ _
  · intro e he
    have hmem : e ∈ ((emptyStore maxCaptures).hydrate entries).captures := by
      rw [hcap]; exact he
    have hget := h2 e hmem
    constructor
    · rw [InMemoryCaptureStore.get, hget]; rfl
    · rw [InMemoryCaptureStore.getReplaySource, hget]; rfl
  · intro id hsome
    rcases Option.isSome_iff_exists.mp hsome with ⟨e, hget⟩
    obtain ⟨hmem, hide⟩ := h1 id e hget
    rw [hcap] at hmem
    exact ⟨e, hmem, hide⟩
  · intro P raw j xs es hparse hcapt hdec
    rw [FileCaptureStore.load, hparse]
    simp only [hcapt, hdec]

/-- Witness for C10 at a concrete instance: a two-entry snapshot hydrated
into a store of maximum 1 keeps only the first entry. -/
theorem hydrate_prunes_persisted_witness :
    (([sampleStored "a", sampleStored "b"].map (fun e => e.record.id)).Nodup) ∧
    ((emptyStore 1).hydrate [sampleStored "a", sampleStored "b"]).captures =
      [sampleStored "a", sampleStored "b"].take 1 :=
  ⟨by simp [sampleStored, sampleRecord],
   (hydrate_prunes_persisted 1 [sampleStored "a", sampleStored "b"]
      (by simp [sampleStored, sampleRecord])).1⟩

/-- Agreement of the two load branches with hydrate's loop: when every raw
entry conforms (`decodeEntries` succeeds), running the loop (`abortedHydrate`
never aborts) from a typed state is exactly the typed push/index fold that
`InMemoryCaptureStore.hydrate` performs before pruning — justifying that the
completed-loop branch of `FileCaptureStore.load` is `hydrate` itself. -/
theorem decode_complete_fold (P : Prims) (xs : List Json) (es : List StoredCapture)
    (s : InMemoryCaptureStore) (hdec : decodeEntries P xs = some es) :
    abortedHydrate P xs (liftStore s) =
      liftStore (es.foldl
        (fun st e =>
          { st with captures := st.captures ++ [e], byId := mapSet st.byId e.record.id e })
        s) := by
  induction xs generalizing es s with
  | nil =>
    rw [decodeEntries] at hdec
    injection hdec with h
    rw [← h]
    rfl
  | cons x rest ih =>
    rw [decodeEntries] at hdec
    cases hdx : P.decodeEntry x with
    | none =>
      rw [hdx] at hdec
      exact Option.noConfusion hdec
    | some e =>
      rw [hdx] at hdec
      cases hrest : decodeEntries P rest with
      | none =>
        rw [hrest] at hdec
        simp only [Option.map_none'] at hdec
        exact Option.noConfusion hdec
      | some es2 =>
        rw [hrest] at hdec
        simp only [Option.map_some'] at hdec
        injection hdec with h
        rw [← h]
        rw [abortedHydrate]
        simp only [hdx]
        have hlift : LoadedStore.mk ((liftStore s).slots ++ [some e])
              (mapSet (liftStore s).byId e.record.id e) =
            liftStore (InMemoryCaptureStore.mk (s.captures ++ [e])
              (mapSet s.byId e.record.id e) s.maxCaptures) := by
          rw [liftStore, liftStore]
          simp
        rw [hlift, ih es2 _ hrest]
        rfl

/-- Claim C7 (code bug): with the persistence file absent or unparsable the
store does start empty and construction succeeds, but the claim fails for a
present, parsable file whose captures array holds a non-conforming entry:
on the failing input (a file reading as a JSON object whose captures array
is [42]) hydrate pushes the raw entry before `entry.record.id` throws
inside load's try, the catch swallows the TypeError, prune never runs, and
the store is left partially hydrated — `list()` is a one-element sequence
whose entry's record reads as undefined, not the empty sequence the claim
requires.  This contradicts the source's own catch comment ("Ignore
malformed store files and start fresh") and spec §4.4. -/
theorem malformed_store_file_partial_hydrate :
    (FileCaptureStore.load c7Prims 500 none).list = [] ∧
    (FileCaptureStore.load c7Prims 500 (some "not json at all")).list = [] ∧
    c7Prims.jsonParse "\x7b\"captures\":[42]\x7d" = some c7Json ∧
    (FileCaptureStore.load c7Prims 500 (some "\x7b\"captures\":[42]\x7d")).list =
      [none] ∧
    (FileCaptureStore.load c7Prims 500 (some "\x7b\"captures\":[42]\x7d")).list ≠
      [] := by
  refine ⟨rfl, rfl, rfl, rfl, ?_⟩
  intro h
  exact List.noConfusion h

theorem redactHeaders_go (headers : List (String × Option String))
    (acc : List (String × String)) :
    headers.foldl
      (fun result kv =>
        match kv.2 with
        | none => result
        | some v =>
          if v.length = 0 then result
          else result ++ [(kv.1, if sensitiveHeader kv.1 then REDACTION_TOKEN else v)])
      acc =
    acc ++ headers.filterMap
      (fun kv =>
        match kv.2 with
        | none => none
        | some v =>
          if v.length = 0 then none
          else some (kv.1, if sensitiveHeader kv.1 then REDACTION_TOKEN else v)) := by
  induction headers generalizing acc with
  | nil => simp
  | cons kv rest ih =>
    simp only [List.foldl_cons, List.filterMap_cons]
    cases hv : kv.2 with
    | none => rw [ih]
    | some v =>
      by_cases hlen : v.length = 0
      · simp only [hlen, if_pos rfl, ite_true]
        rw [ih]
      · simp only [if_neg hlen]
        rw [ih]
        simp

/-- Claim C4: header redaction replaces the value of every header whose name
matches the case-insensitive sensitive-name pattern set by the fixed token,
passes every other header through unchanged, and drops entries whose value is
absent or empty rather than emitting empty strings; on the spec's example map
only the authorization value is replaced. -/
theorem redactHeaders_spec (headers : List (String × Option String)) :
    redactHeaders headers =
      headers.filterMap
        (fun kv =>
          match kv.2 with
          | none => none
          | some v =>
            if v.length = 0 then none
            else some (kv.1, if sensitiveHeader kv.1 then REDACTION_TOKEN else v)) ∧
    redactHeaders
        [("authorization", some "Bearer very-secret-token"),
         ("content-type", some "application/json"),
         ("x-empty", some ""), ("x-missing", none)] =
      [("authorization", REDACTION_TOKEN), ("content-type", "application/json")] := by
  constructor
  · rw [redactHeaders, redactHeaders_go]
    simp
  · decide

theorem redactJsonObject_arr (items : List Json) (p : String) :
    redactJsonObject (.arr items) p = .arr (items.map (fun it => redactJsonObject it p)) := by
  rw [redactJsonObject]
  congr 1
  exact List.attach_map_coe items (fun it => redactJsonObject it p)

theorem redactJsonObject_obj (fields : List (String × Json)) (p : String) :
    redactJsonObject (.obj fields) p = .obj (fields.map (fun kv =>
      if sensitiveField kv.1 || sensitiveField p then (kv.1, .str REDACTION_TOKEN)
      else (kv.1, redactJsonObject kv.2 kv.1))) := by
  rw [redactJsonObject]
  congr 1
  exact List.attach_map_coe fields (fun kv =>
    if sensitiveField kv.1 || sensitiveField p then (kv.1, .str REDACTION_TOKEN)
    else (kv.1, redactJsonObject kv.2 kv.1))

theorem specRedact_arr (items : List Json) (b : Bool) :
    specRedact (.arr items) b = .arr (items.map (fun it => specRedact it b)) := by
  rw [specRedact]
  congr 1
  exact List.attach_map_coe items (fun it => specRedact it b)

theorem specRedact_obj (fields : List (String × Json)) (b : Bool) :
    specRedact (.obj fields) b = .obj (fields.map (fun kv =>
      if sensitiveField kv.1 || b then (kv.1, .str REDACTION_TOKEN)
      else (kv.1, specRedact kv.2 (sensitiveField kv.1)))) := by
  rw [specRedact]
  congr 1
  exact List.attach_map_coe fields (fun kv =>
    if sensitiveField kv.1 || b then (kv.1, .str REDACTION_TOKEN)
    else (kv.1, specRedact kv.2 (sensitiveField kv.1)))

theorem redact_eq_spec (v : Json) (p : String) :
    redactJsonObject v p = specRedact v (sensitiveField p) := by
  induction v, p using redactJsonObject.induct with
  | case1 p items ih =>
    rw [redactJsonObject_arr, specRedact_arr]
    congr 1
    exact List.map_congr_left (fun it hit => ih ⟨it, hit⟩)
  | case2 p fields ih =>
    rw [redactJsonObject_obj, specRedact_obj]
    congr 1
    apply List.map_congr_left
    intro kv hkv
    by_cases hs : (sensitiveField kv.1 || sensitiveField p) = true
    · rw [if_pos hs, if_pos hs]
    · rw [if_neg hs, if_neg hs]
      rw [ih ⟨kv, hkv⟩ hs]
  | case3 p s hs =>
    rw [redactJsonObject, specRedact]
  | case4 p s hs =>
    rw [redactJsonObject, specRedact]
  | case5 p v hna hno hns =>
    cases v with
    | null => rw [redactJsonObject, specRedact] <;> (intro x h; exact Json.noConfusion h)
    | bool b => rw [redactJsonObject, specRedact] <;> (intro x h; exact Json.noConfusion h)
    | num n => rw [redactJsonObject, specRedact] <;> (intro x h; exact Json.noConfusion h)
    | str s => exact absurd rfl (hns s)
    | arr items => exact absurd rfl (hna items)
    | obj fields => exact absurd rfl (hno fields)

/-- Claim C3: for every body that parses as JSON under a JSON content type,
`redactBody` redacts the parsed structure and re-serializes it with the
pretty printer; the structural walk agrees with the spec's rule (`specRedact`):
a field's value becomes the token exactly when its own key matches the
sensitive-field pattern or its parent key matched — a nested object or
string under a sensitive key is fully masked and never recursed into —
while all other fields are preserved and arrays are recursed element-wise;
the spec's explicit nested-object example is redacted accordingly. -/
theorem json_redaction_rule (P : Prims) (body ct : String) (j : Json)
    (hct : containsSub ct "application/json" = true)
    (hparse : P.jsonParse body = some j)
    (hne : body ≠ "") :
    redactBody P (some body) (some ct) = some (P.stringify (redactJsonObject j "")) ∧
    (∀ v p, redactJsonObject v p = specRedact v (sensitiveField p)) ∧
    redactJsonObject j "" = specRedact j false ∧
    redactJsonObject
        (.obj [("secretConfig", .obj [("inner", .str "x")]), ("plain", .str "y")]) "" =
      .obj [("secretConfig", .str REDACTION_TOKEN), ("plain", .str "y")] := by
  have hlen : ¬ body.length = 0 := by
    intro h0
    exact hne (String.ext (List.length_eq_zero.mp h0))
  refine ⟨?_, redact_eq_spec, ?_, ?_⟩
  · rw [redactBody]
    rw [if_neg hlen]
    simp only [hct, if_pos, hparse]
  · have h3 : sensitiveField "" = false := by decide
    rw [redact_eq_spec j "", h3]
  · have h1 : sensitiveField "secretConfig" = true := by decide
    have h2 : sensitiveField "plain" = false := by decide
    have h3 : sensitiveField "" = false := by decide
    rw [redactJsonObject_obj]
    simp [h1, h2, h3, redactJsonObject]

/-- Witness for C3 at the spec's example body. -/
theorem json_redaction_rule_witness :
    containsSub "application/json" "application/json" = true ∧
    c3Prims.jsonParse "\x7b\"prompt\":\"hello\",\"apiKey\":\"sk-live-key\"\x7d" = some c3Json ∧
    ("\x7b\"prompt\":\"hello\",\"apiKey\":\"sk-live-key\"\x7d" : String) ≠ "" ∧
    redactBody c3Prims (some "\x7b\"prompt\":\"hello\",\"apiKey\":\"sk-live-key\"\x7d")
        (some "application/json") =
      some (c3Prims.stringify (redactJsonObject c3Json "")) :=
  ⟨by decide, rfl, by decide,
   (json_redaction_rule c3Prims "\x7b\"prompt\":\"hello\",\"apiKey\":\"sk-live-key\"\x7d"
      "application/json" c3Json (by decide) rfl (by decide)).1⟩

theorem endsWithSlash_eq (s : String) :
    endsWithSlash s = (s.data.getLast? == some '/') := by
  rw [endsWithSlash]
  cases h : s.data.getLast? with
  | none => simp
  | some c => by_cases hc : c = '/' <;> simp [hc]

theorem startsWithSlash_eq (s : String) :
    startsWithSlash s = (s.data.head? == some '/') := by
  rw [startsWithSlash]
  cases h : s.data with
  | nil => simp
  | cons c t => by_cases hc : c = '/' <;> simp [hc]

theorem right_data (s : String) :
    (if startsWithSlash s then s else "/" ++ s).data = '/' :: (stripLead s).data := by
  by_cases hs : startsWithSlash s
  · rw [if_pos hs, stripLead, if_pos hs]
    rw [startsWithSlash_eq] at hs
    cases hd : s.data with
    | nil => rw [hd] at hs; simp at hs
    | cons c t =>
      rw [hd] at hs
      have hc : c = '/' := by simpa using hs
      simp [hd, hc]
  · rw [if_neg hs, stripLead, if_neg hs, String.data_append]
    rfl

theorem joinPath_unfold (b s : String) :
    joinPath b s = if (stripTrail b).length = 0
      then (if startsWithSlash s then s else "/" ++ s)
      else stripTrail b ++ (if startsWithSlash s then s else "/" ++ s) := rfl

theorem joinPath_data (b s : String) :
    (joinPath b s).data = (stripTrail b).data ++ '/' :: (stripLead s).data := by
  rw [joinPath_unfold]
  by_cases h0 : (stripTrail b).length = 0
  · rw [if_pos h0]
    have hnil : (stripTrail b).data = [] := List.length_eq_zero.mp h0
    rw [hnil, List.nil_append]
    exact right_data s
  · rw [if_neg h0, String.data_append, right_data s]

theorem joinPath_eq (b s : String) :
    joinPath b s = stripTrail b ++ "/" ++ stripLead s := by
  apply String.ext
  rw [joinPath_data, String.data_append, String.data_append]
  simp

theorem dsAux_append (l r : List Char) :
    dsAux (l ++ r) = (dsAux l || dsAux r ||
      (decide (l.getLast? = some '/') && decide (r.head? = some '/'))) := by
  induction l with
  | nil => simp [dsAux]
  | cons c t ih =>
    cases t with
    | nil =>
      cases r with
      | nil => simp [dsAux]
      | cons d u =>
        by_cases hc : c = '/' <;> by_cases hd : d = '/' <;>
          simp [dsAux, hc, hd]
    | cons c2 t2 =>
      have hstep : dsAux ((c :: c2 :: t2) ++ r) =
          ((decide (c = '/') && decide (c2 = '/')) || dsAux ((c2 :: t2) ++ r)) := rfl
      have hds : dsAux (c :: c2 :: t2) =
          ((decide (c = '/') && decide (c2 = '/')) || dsAux (c2 :: t2)) := rfl
      rw [hstep, ih, hds, List.getLast?_cons_cons]
      cases (decide (c = '/') && decide (c2 = '/')) <;>
        cases dsAux (c2 :: t2) <;> cases dsAux r <;>
        cases (decide ((c2 :: t2).getLast? = some '/') && decide (r.head? = some '/')) <;> rfl

theorem dsAux_cons_slash (xs : List Char) (hhead : xs.head? ≠ some '/')
    (hxs : dsAux xs = false) : dsAux ('/' :: xs) = false := by
  cases xs with
  | nil => rfl
  | cons d u =>
    have hd : d ≠ '/' := by
      intro h
      exact hhead (by simp [h])
    have hstep : dsAux ('/' :: d :: u) =
        ((decide (('/' : Char) = '/') && decide (d = '/')) || dsAux (d :: u)) := rfl
    rw [hstep, hxs]
    simp [hd]

theorem stripTrail_no_ds (b : String) (hb : hasDoubleSlash b = false) :
    dsAux (stripTrail b).data = false ∧ (stripTrail b).data.getLast? ≠ some '/' := by
  rw [hasDoubleSlash] at hb
  by_cases he : endsWithSlash b = true
  · have he' : b.data.getLast? = some '/' := by
      rw [endsWithSlash_eq] at he
      simpa using he
    rw [stripTrail, if_pos he]
    have hne : b.data ≠ [] := by
      intro hnil
      rw [hnil] at he'
      simp at he'
    have hlast : b.data.getLast hne = '/' := by
      have h3 := List.getLast?_eq_getLast b.data hne
      rw [h3] at he'
      exact Option.some.inj he'
    have hsplit : b.data.dropLast ++ ['/'] = b.data := by
      have h1 := List.dropLast_append_getLast hne
      rw [hlast] at h1
      exact h1
    have happ := dsAux_append b.data.dropLast ['/']
    rw [hsplit] at happ
    rw [happ] at hb
    simp only [dsAux, List.head?_cons, Bool.or_eq_false_iff, Bool.and_eq_false_iff] at hb
    obtain ⟨⟨hb1, _⟩, hb2⟩ := hb
    have hlast2 : b.data.dropLast.getLast? ≠ some '/' := by
      rcases hb2 with hcase | hcase
      · intro habs
        rw [habs] at hcase
        simp at hcase
      · simp at hcase
    exact ⟨hb1, fun habs => hlast2 (by simpa using habs)⟩
  · have he' : b.data.getLast? ≠ some '/' := by
      rw [endsWithSlash_eq] at he
      intro habs
      rw [habs] at he
      simp at he
    rw [stripTrail, if_neg he]
    exact ⟨hb, he'⟩

theorem stripLead_no_ds (s : String) (hs : hasDoubleSlash s = false) :
    dsAux ('/' :: (stripLead s).data) = false := by
  rw [hasDoubleSlash] at hs
  by_cases hw : startsWithSlash s = true
  · have hw' : s.data.head? = some '/' := by
      rw [startsWithSlash_eq] at hw
      simpa using hw
    rw [stripLead, if_pos hw]
    cases hd : s.data with
    | nil =>
      rw [hd] at hw'
      simp at hw'
    | cons c t =>
      have hc : c = '/' := by
        rw [hd] at hw'
        simpa using hw'
      rw [hd, hc] at hs
      show dsAux ('/' :: t) = false
      exact hs
  · rw [stripLead, if_neg hw]
    apply dsAux_cons_slash
    · rw [startsWithSlash_eq] at hw
      intro habs
      rw [habs] at hw
      simp at hw
    · exact hs

theorem joinPath_no_double (b s : String) (hb : hasDoubleSlash b = false)
    (hs : hasDoubleSlash s = false) : hasDoubleSlash (joinPath b s) = false := by
  rw [hasDoubleSlash, joinPath_data, dsAux_append]
  obtain ⟨h1, h2⟩ := stripTrail_no_ds b hb
  have h3 := stripLead_no_ds s hs
  simp [h1, h2, h3]

/-- Claim C9 counterexample: the claim's "never produces a doubled slash at
the seam" fails as a universal statement.  With the clean origin path "/v1"
and the wildcard sub-path "//x" (a leading slash is within the claimed
tolerance) the join yields "/v1//x", a doubled slash at the seam; likewise an
origin path ending in a doubled slash has one of its slashes carried through
the seam. -/
theorem joinPath_double_slash_cex :
    joinPath "/v1" "//x" = "/v1//x" ∧
    hasDoubleSlash "/v1" = false ∧
    hasDoubleSlash (joinPath "/v1" "//x") = true ∧
    joinPath "/v1//" "x" = "/v1//x" ∧
    hasDoubleSlash "x" = false ∧
    hasDoubleSlash (joinPath "/v1//" "x") = true := by
  decide

/-- Claim C9 (amended): the join equals the origin path with one trailing
slash removed, then exactly one separating slash, then the sub-path with one
leading slash removed — so a slash is never missing at the seam, the claimed
tolerance holds, and no doubled slash arises provided neither input itself
carries a doubled slash (origin ending in "//" or sub-path starting with
"//"); the resolver applies exactly this join to the parsed target's
pathname. -/
theorem joinPath_seam_spec :
    (∀ b s, joinPath b s = stripTrail b ++ "/" ++ stripLead s) ∧
    (∀ b s, hasDoubleSlash b = false → hasDoubleSlash s = false →
      hasDoubleSlash (joinPath b s) = false) ∧
    (∀ P rawTarget wildcard query base, Prims.urlParse P rawTarget = some base →
      resolveTargetUrl P rawTarget wildcard query =
        some { base with pathname := joinPath base.pathname wildcard,
                         search := base.search ++
                           query.filter (fun kv => kv.1 ≠ "target") }) := by
  refine ⟨joinPath_eq, joinPath_no_double, ?_⟩
  intro P rawTarget wildcard query base hparse
  rw [resolveTargetUrl, hparse]
  rfl

/-- Witness for the amended C9 at a concrete instance. -/
theorem joinPath_seam_spec_witness :
    hasDoubleSlash "/v1/" = false ∧ hasDoubleSlash "/messages" = false ∧
    hasDoubleSlash (joinPath "/v1/" "/messages") = false :=
  ⟨by decide, by decide, joinPath_seam_spec.2.1 "/v1/" "/messages" (by decide) (by decide)⟩

theorem find?_filter_of_imp {α : Type} (p g : α → Bool) (l : List α)
    (h : ∀ x, p x = true → g x = true) :
    (l.filter g).find? p = l.find? p := by
  induction l with
  | nil => rfl
  | cons x xs ih =>
    rw [List.filter_cons]
    by_cases hp : p x = true
    · rw [if_pos (h x hp)]
      rw [List.find?_cons, List.find?_cons, hp]
    · have hp' : p x = false := by
        cases hpx : p x
        · rfl
        · exact absurd hpx hp
      by_cases hg : g x = true
      · rw [if_pos hg, List.find?_cons, List.find?_cons, hp', ih]
      · have hg' : g x = false := by
          cases hgx : g x
          · rfl
          · exact absurd hgx hg
        rw [if_neg hg, ih, List.find?_cons, hp']

theorem recordGet_cons (kv : String × String) (rest : List (String × String)) (k : String) :
    recordGet (kv :: rest) k = if kv.1 = k then some kv.2 else recordGet rest k := by
  rw [recordGet, List.find?_cons]
  by_cases hk : kv.1 = k
  · simp [hk]
  · simp [hk, recordGet]

theorem recordGet_mapped (base ov : List (String × String)) (k : String) :
    recordGet (List.map (fun kv =>
      match recordGet ov kv.1 with
      | some w => (kv.1, w)
      | none => kv) base) k =
    (recordGet base k).map (fun v =>
      match recordGet ov k with
      | some w => w
      | none => v) := by
  induction base with
  | nil => rfl
  | cons kv rest ih =>
    rw [List.map_cons]
    cases hov : recordGet ov kv.1 with
    | some w =>
      simp only [hov]
      rw [recordGet_cons, recordGet_cons]
      by_cases hk : kv.1 = k
      · rw [if_pos hk, if_pos hk]
        rw [hk] at hov
        simp [hov]
      · rw [if_neg hk, if_neg hk, ih]
    | none =>
      simp only [hov]
      rw [recordGet_cons, recordGet_cons]
      by_cases hk : kv.1 = k
      · rw [if_pos hk, if_pos hk]
        rw [hk] at hov
        simp [hov]
      · rw [if_neg hk, if_neg hk, ih]

theorem recordGet_filtered (base ov : List (String × String)) (k : String)
    (hb : recordGet base k = none) :
    recordGet (ov.filter (fun kv => (recordGet base kv.1).isNone)) k = recordGet ov k := by
  rw [recordGet, recordGet, find?_filter_of_imp]
  intro kv hp
  have hk : kv.1 = k := of_decide_eq_true hp
  rw [hk, hb]
  rfl

theorem recordGet_merge (base ov : List (String × String)) (k : String) :
    recordGet (recordMerge base ov) k =
      (match recordGet ov k with
       | some w => some w
       | none => recordGet base k) := by
  rw [recordMerge, recordGet, List.find?_append]
  have hmap := recordGet_mapped base ov k
  rw [recordGet] at hmap
  cases hb : recordGet base k with
  | some v =>
    rw [hb] at hmap
    cases hf : (List.find? (fun kv => decide (kv.1 = k)) (List.map (fun kv =>
        match recordGet ov kv.1 with
        | some w => (kv.1, w)
        | none => kv) base)) with
    | none => rw [hf] at hmap; simp at hmap
    | some e =>
      rw [hf] at hmap
      simp only [Option.map_some'] at hmap
      rw [Option.or]
      simp only [Option.map_some']
      rw [hmap]
      cases ho : recordGet ov k with
      | some w => simp [ho]
      | none => simp [ho]
  | none =>
    rw [hb] at hmap
    cases hf : (List.find? (fun kv => decide (kv.1 = k)) (List.map (fun kv =>
        match recordGet ov kv.1 with
        | some w => (kv.1, w)
        | none => kv) base)) with
    | some e => rw [hf] at hmap; simp at hmap
    | none =>
      have hfil := recordGet_filtered base ov k hb
      rw [recordGet] at hfil
      simp only [Option.none_or]
      rw [hfil]
      cases ho : recordGet ov k with
      | some w => rfl
      | none => rfl

theorem add_byId_of_le (s : InMemoryCaptureStore) (r : CaptureRecord) (rep : ReplaySource)
    (h : s.captures.length + 1 ≤ s.maxCaptures) :
    (s.add r rep).byId = mapSet s.byId r.id (mkStored (r, rep)) := by
  rw [InMemoryCaptureStore.add, prune_eq_of_le _ (by simpa using h)]
  rfl

theorem sample_store_getReplaySource (maxCaptures : Nat) (h : 1 ≤ maxCaptures) :
    ((emptyStore maxCaptures).add (sampleRecord "orig")
        (sampleSource "orig-src")).getReplaySource "orig" =
      some (sampleSource "orig-src") := by
  rw [InMemoryCaptureStore.getReplaySource,
    add_byId_of_le _ _ _ (by simpa [emptyStore] using h)]
  simp [mapSet, mkStored, sampleRecord, emptyStore]

/-- Claim C8: an inbound proxied request carrying neither the reserved target
header nor the reserved target query parameter fails target resolution with
the fixed missing-target message, the handler answers 400 with the store
untouched, and the result does not depend on the upstream at all (the request
is never forwarded); when the header is present as a string it takes
precedence over the query parameter. -/
theorem target_resolution_missing (P : Prims)
    (freshSourceId freshRecordId createdAt : String) (durationMs : Nat)
    (req : InboundRequest) (upstream upstream' : Except Unit UpstreamResponse)
    (store : InMemoryCaptureStore)
    (hh : headerLookup req.headers "x-proxylab-target" = none)
    (hq : searchParamsGet req.query "target" = none) :
    buildReplaySourceFromRequest P freshSourceId req = .error missingTargetMessage ∧
    proxyHandler P freshSourceId freshRecordId createdAt durationMs req upstream store =
      (.badRequest missingTargetMessage, store) ∧
    proxyHandler P freshSourceId freshRecordId createdAt durationMs req upstream store =
      proxyHandler P freshSourceId freshRecordId createdAt durationMs req upstream' store ∧
    (∀ s q q', resolveRawTarget (some (.str s)) q = resolveRawTarget (some (.str s)) q') ∧
    (∀ s q, s ≠ "" → resolveRawTarget (some (.str s)) q = some s) := by
  have hbuild : buildReplaySourceFromRequest P freshSourceId req =
      .error missingTargetMessage := by
    rw [buildReplaySourceFromRequest, hh, hq]
    rfl
  refine ⟨hbuild, ?_, ?_, ?_, ?_⟩
  · rw [proxyHandler, hbuild]
  · rw [proxyHandler, hbuild, proxyHandler, hbuild]
  · intro s q q'
    rfl
  · intro s q hs
    rw [resolveRawTarget]
    have hlen : ¬ s.length = 0 := fun h0 => hs (String.ext (List.length_eq_zero.mp h0))
    simp [hlen]

/-- Witness for C8 at a concrete request with no target information. -/
theorem target_resolution_missing_witness :
    headerLookup ([] : List (String × HeaderValue)) "x-proxylab-target" = none ∧
    searchParamsGet ([] : List (String × String)) "target" = none ∧
    buildReplaySourceFromRequest samplePrims "sid"
        { method := "GET", wildcard := "x", query := [], headers := [], body := none } =
      .error missingTargetMessage :=
  ⟨rfl, rfl,
   (target_resolution_missing samplePrims "sid" "rid" "now" 0
      { method := "GET", wildcard := "x", query := [], headers := [], body := none }
      (.error ()) (.ok sampleUpstream) (emptyStore 500) rfl rfl).1⟩

/-- Claim C6 (amended): a network-level upstream failure leaves the store
untouched in both routes, and for a live proxied call the caller receives the
fixed 502 gateway error; for a replayed call, however, the failure is not
caught by the handler and escapes as an unhandled error (the framework's
generic error response), not a gateway error. -/
theorem upstream_unreachable_spec (P : Prims)
    (freshSourceId freshRecordId createdAt : String) (durationMs : Nat)
    (req : InboundRequest) (replay : ReplaySource) (store : InMemoryCaptureStore)
    (payload : ReplayPayload) (source : ReplaySource) :
    (buildReplaySourceFromRequest P freshSourceId req = .ok replay →
      proxyHandler P freshSourceId freshRecordId createdAt durationMs req
          (.error ()) store =
        (.gatewayError "Failed to reach target API", store)) ∧
    (payload.id ≠ "" → store.getReplaySource payload.id = some source →
      replayHandler P freshRecordId createdAt durationMs store payload (.error ()) =
        (.unhandledException, store)) := by
  constructor
  · intro hb
    rw [proxyHandler, hb]
  · intro hid hsrc
    have hlen : ¬ payload.id.length = 0 :=
      fun h0 => hid (String.ext (List.length_eq_zero.mp h0))
    rw [replayHandler, if_neg hlen, hsrc]

/-- Claim C6 counterexample: on a replayed call whose outbound fetch fails,
the handler does not produce the gateway-error reply the claim requires —
the rejection escapes the handler (the framework then answers with its
generic internal error), though the store is indeed left unchanged. -/
theorem upstream_unreachable_replay_cex :
    replayHandler samplePrims "rid" "now" 0
        ((emptyStore 500).add (sampleRecord "orig") (sampleSource "orig-src"))
        { id := "orig", overrides := none } (.error ()) =
      (.unhandledException,
       (emptyStore 500).add (sampleRecord "orig") (sampleSource "orig-src")) ∧
    HandlerReply.unhandledException ≠
      HandlerReply.gatewayError "Failed to reach target API" := by
  constructor
  · have hlen : ¬ ("orig" : String).length = 0 := by decide
    rw [replayHandler, if_neg hlen, sample_store_getReplaySource 500 (by omega)]
  · decide

/-- Witness for the amended C6 at concrete instances of both routes. -/
theorem upstream_unreachable_spec_witness :
    buildReplaySourceFromRequest urlPrims "sid"
        { method := "get", wildcard := "x", query := [],
          headers := [("x-proxylab-target", HeaderValue.str "https://a")], body := none } =
      .ok { id := "sid", method := "GET", path := "/x", targetUrl := "",
            headers := [], body := none } ∧
    proxyHandler urlPrims "sid" "rid" "now" 0
        { method := "get", wildcard := "x", query := [],
          headers := [("x-proxylab-target", HeaderValue.str "https://a")], body := none }
        (.error ()) (emptyStore 500) =
      (.gatewayError "Failed to reach target API", emptyStore 500) ∧
    ("orig2" : String) ≠ "" ∧
    ((emptyStore 200).add (sampleRecord "orig") (sampleSource "orig-src")).getReplaySource
        "orig" = some (sampleSource "orig-src") ∧
    replayHandler samplePrims "rid" "now" 0
        ((emptyStore 200).add (sampleRecord "orig") (sampleSource "orig-src"))
        { id := "orig", overrides := none } (.error ()) =
      (.unhandledException,
       (emptyStore 200).add (sampleRecord "orig") (sampleSource "orig-src")) :=
  ⟨rfl,
   (upstream_unreachable_spec urlPrims "sid" "rid" "now" 0
      { method := "get", wildcard := "x", query := [],
        headers := [("x-proxylab-target", HeaderValue.str "https://a")], body := none }
      { id := "sid", method := "GET", path := "/x", targetUrl := "",
        headers := [], body := none }
      (emptyStore 500) { id := "orig", overrides := none } (sampleSource "orig-src")).1 rfl,
   by decide,
   sample_store_getReplaySource 200 (by omega),
   (upstream_unreachable_spec samplePrims "sid" "rid" "now" 0
      { method := "get", wildcard := "x", query := [], headers := [], body := none }
      (sampleSource "unused")
      ((emptyStore 200).add (sampleRecord "orig") (sampleSource "orig-src"))
      { id := "orig", overrides := none } (sampleSource "orig-src")).2
      (by decide) (sample_store_getReplaySource 200 (by omega))⟩

theorem recordMerge_nil (base : List (String × String)) : recordMerge base [] = base := by
  rw [recordMerge]
  simp [recordGet]

theorem mergeReplay_none (src : ReplaySource) : mergeReplay src none = src := by
  obtain ⟨i, m, t, pth, hs, b⟩ := src
  simp [mergeReplay, recordMerge_nil]

theorem mergeReplay_some (src : ReplaySource) (ov : ReplayOverrides) :
    (mergeReplay src (some ov)).method =
      (match ov.method with | some m => upperString m | none => src.method) ∧
    (mergeReplay src (some ov)).targetUrl = ov.targetUrl.getD src.targetUrl ∧
    (∀ k, recordGet (mergeReplay src (some ov)).headers k =
      (match recordGet (ov.headers.getD []) k with
       | some w => some w
       | none => recordGet src.headers k)) ∧
    (mergeReplay src (some ov)).body =
      (match ov.body with
       | some none => none
       | some (some b) => some b
       | none => src.body) := by
  refine ⟨rfl, rfl, ?_, rfl⟩
  intro k
  exact recordGet_merge src.headers (ov.headers.getD []) k

theorem replayHandler_ok (P : Prims) (freshRecordId createdAt : String)
    (durationMs : Nat) (store : InMemoryCaptureStore) (payload : ReplayPayload)
    (u : UpstreamResponse) (source : ReplaySource)
    (hid : payload.id ≠ "") (hsrc : store.getReplaySource payload.id = some source) :
    replayHandler P freshRecordId createdAt durationMs store payload (.ok u) =
      (.created (withCapture P freshRecordId createdAt store
          (mergeReplay source payload.overrides)
          { statusCode := u.statusCode, durationMs := durationMs, headers := u.headers,
            body := some u.body, replayOf := some payload.id }).1,
       (withCapture P freshRecordId createdAt store
          (mergeReplay source payload.overrides)
          { statusCode := u.statusCode, durationMs := durationMs, headers := u.headers,
            body := some u.body, replayOf := some payload.id }).2) := by
  have hlen : ¬ payload.id.length = 0 :=
    fun h0 => hid (String.ext (List.length_eq_zero.mp h0))
  rw [replayHandler, if_neg hlen, hsrc]

theorem withCapture_snd (P : Prims) (fid cAt : String) (store : InMemoryCaptureStore)
    (replay : ReplaySource) (resp : ResponseMeta) :
    (withCapture P fid cAt store replay resp).2 =
      store.add (withCapture P fid cAt store replay resp).1 replay := rfl

theorem add_list_below_capacity (s : InMemoryCaptureStore) (r : CaptureRecord)
    (rep : ReplaySource) (h : s.captures.length < s.maxCaptures) :
    (s.add r rep).list = r :: s.list := by
  rw [InMemoryCaptureStore.list, add_captures, InMemoryCaptureStore.list]
  rw [List.take_of_length_le (by simp only [List.length_cons]; omega)]
  simp [mkStored]

/-- Claim C5 (amended): the replay route merges overrides into the stored
replay source exactly as claimed — method (uppercased) and targetUrl replaced
wholesale when overridden, headers a shallow merge where override keys win
and all original keys are retained, body following the explicit-null /
absent / value tri-state — the new record's `replayOf` equals the original
capture id, and a replay with no overrides re-issues exactly the original
replay source; the capture list grows by exactly one *when the store is
below its configured maximum* (at capacity the oldest record is evicted and
the length stays at the maximum, see the counterexample). -/
theorem replay_merge_spec (P : Prims) (freshRecordId createdAt : String)
    (durationMs : Nat) (store : InMemoryCaptureStore) (payload : ReplayPayload)
    (source : ReplaySource) (u : UpstreamResponse)
    (hid : payload.id ≠ "") (hsrc : store.getReplaySource payload.id = some source) :
    (∀ src ov,
      (mergeReplay src (some ov)).method =
        (match ov.method with | some m => upperString m | none => src.method) ∧
      (mergeReplay src (some ov)).targetUrl = ov.targetUrl.getD src.targetUrl ∧
      (∀ k, recordGet (mergeReplay src (some ov)).headers k =
        (match recordGet (ov.headers.getD []) k with
         | some w => some w
         | none => recordGet src.headers k)) ∧
      (mergeReplay src (some ov)).body =
        (match ov.body with
         | some none => none
         | some (some b) => some b
         | none => src.body)) ∧
    (∀ src, mergeReplay src none = src) ∧
    (replayHandler P freshRecordId createdAt durationMs store payload (.ok u)).1 =
      .created (withCapture P freshRecordId createdAt store
        (mergeReplay source payload.overrides)
        { statusCode := u.statusCode, durationMs := durationMs, headers := u.headers,
          body := some u.body, replayOf := some payload.id }).1 ∧
    (withCapture P freshRecordId createdAt store (mergeReplay source payload.overrides)
        { statusCode := u.statusCode, durationMs := durationMs, headers := u.headers,
          body := some u.body, replayOf := some payload.id }).1.replayOf =
      some payload.id ∧
    (store.captures.length < store.maxCaptures →
      (replayHandler P freshRecordId createdAt durationMs store payload (.ok u)).2.list =
        (withCapture P freshRecordId createdAt store (mergeReplay source payload.overrides)
          { statusCode := u.statusCode, durationMs := durationMs, headers := u.headers,
            body := some u.body, replayOf := some payload.id }).1 :: store.list) := by
  refine ⟨mergeReplay_some, mergeReplay_none, ?_, rfl, ?_⟩
  · rw [replayHandler_ok P freshRecordId createdAt durationMs store payload u source hid hsrc]
  · intro hlt
    rw [replayHandler_ok P freshRecordId createdAt durationMs store payload u source hid hsrc]
    rw [withCapture_snd]
    exact add_list_below_capacity store _ _ hlt

/-- Claim C5 counterexample: at capacity the capture list does not grow by
one on a replay — with maximum 1 and one stored capture, a successful
no-override replay leaves the list length at 1 (the original is evicted). -/
theorem replay_growth_at_capacity_cex :
    ((replayHandler samplePrims "rid" "now" 0
        ((emptyStore 1).add (sampleRecord "orig") (sampleSource "orig-src"))
        { id := "orig", overrides := none } (.ok sampleUpstream)).2).list.length = 1 ∧
    ((emptyStore 1).add (sampleRecord "orig") (sampleSource "orig-src")).list.length = 1 := by
  have hsrc := sample_store_getReplaySource 1 (le_refl 1)
  have hlen1 : ((emptyStore 1).add (sampleRecord "orig")
      (sampleSource "orig-src")).captures.length = 1 := by
    rw [add_captures]
    simp [emptyStore]
  have hmax1 : ((emptyStore 1).add (sampleRecord "orig")
      (sampleSource "orig-src")).maxCaptures = 1 := by
    rw [add_maxCaptures]
    rfl
  constructor
  · rw [replayHandler_ok samplePrims "rid" "now" 0 _ _ _ _ (by decide) hsrc]
    rw [withCapture_snd]
    rw [InMemoryCaptureStore.list, List.length_map, add_captures, List.length_take,
      hmax1, List.length_cons, hlen1]
    omega
  · rw [InMemoryCaptureStore.list, List.length_map, hlen1]

/-- Witness for the amended C5 at a concrete instance. -/
theorem replay_merge_spec_witness :
    ("orig" : String) ≠ "" ∧
    ((emptyStore 300).add (sampleRecord "orig") (sampleSource "orig-src")).getReplaySource
        "orig" = some (sampleSource "orig-src") ∧
    mergeReplay (sampleSource "orig-src") none = sampleSource "orig-src" :=
  ⟨by decide, sample_store_getReplaySource 300 (by omega),
   (replay_merge_spec samplePrims "rid" "now" 0
      ((emptyStore 300).add (sampleRecord "orig") (sampleSource "orig-src"))
      { id := "orig", overrides := none } (sampleSource "orig-src") sampleUpstream
      (by decide) (sample_store_getReplaySource 300 (by omega))).2.1
      (sampleSource "orig-src")⟩
